import Mathlib

/-!
Verification model of the word-syllable-game backend (`app.py`, `database.py`).

Modelling conventions:
* Python strings are lists of characters (`Str`).
* Calendar dates are day numbers (`Nat`); `strftime('%Y-%m-%d')` is
  order-preserving, so SQL comparisons on date strings become `≤` on `Nat`.
* The SQLite database is a record of three lists (tables `words`,
  `daily_puzzles`, `scores`); SQL statements become list operations.
* `ORDER BY RANDOM()` and `random.shuffle` are modelled by shuffle-function
  parameters; theorems that depend on them assume the function permutes its
  input.
-/

abbrev Str := List Char

/-- Python `str.split(sep)` for a one-character separator: splitting the empty
string yields `[""]`, and empty fields between separators are kept. -/
def splitOnChar (sep : Char) : Str → List Str
  | [] => [[]]
  | c :: cs =>
    let r := splitOnChar sep cs
    if c = sep then [] :: r
    else
      match r with
      | [] => [[c]]
      | t :: ts => (c :: t) :: ts

/-- Python `sep.join(tokens)` for a one-character separator. -/
def joinChar (sep : Char) : List Str → Str
  | [] => []
  | [t] => t
  | t :: ts => t ++ sep :: joinChar sep ts

theorem splitOnChar_ne_nil (sep : Char) (s : Str) : splitOnChar sep s ≠ [] := by
  induction s with
  | nil => simp [splitOnChar]
  | cons c cs ih =>
    simp only [splitOnChar]
    split
    · simp
    · cases h : splitOnChar sep cs with
      | nil => exact absurd h ih
      | cons t ts => simp [h]

theorem splitOnChar_cons_sep {sep c0 : Char} {cs : Str} (h : c0 = sep) :
    splitOnChar sep (c0 :: cs) = [] :: splitOnChar sep cs := by
  simp only [splitOnChar, if_pos h]

theorem splitOnChar_cons_ne {sep c0 : Char} {cs t1 : Str} {ts : List Str}
    (h : c0 ≠ sep) (hr : splitOnChar sep cs = t1 :: ts) :
    splitOnChar sep (c0 :: cs) = (c0 :: t1) :: ts := by
  simp only [splitOnChar, if_neg h, hr]

/-- Every character of a token produced by the split occurs in the split
string. -/
theorem mem_of_mem_splitOnChar {sep : Char} :
    ∀ {s t : Str}, t ∈ splitOnChar sep s → ∀ {c : Char}, c ∈ t → c ∈ s := by
  intro s
  induction s with
  | nil =>
    intro t ht c hc
    simp only [splitOnChar, List.mem_singleton] at ht
    subst ht
    simp at hc
  | cons c0 cs ih =>
    intro t ht c hc
    by_cases h0 : c0 = sep
    · rw [splitOnChar_cons_sep h0] at ht
      rcases List.mem_cons.mp ht with rfl | ht2
      · simp at hc
      · exact List.mem_cons_of_mem c0 (ih ht2 hc)
    · cases hr : splitOnChar sep cs with
      | nil => exact absurd hr (splitOnChar_ne_nil sep cs)
      | cons t1 ts =>
        rw [splitOnChar_cons_ne h0 hr] at ht
        rcases List.mem_cons.mp ht with rfl | ht2
        · rcases List.mem_cons.mp hc with rfl | hc2
          · exact List.mem_cons_self c cs
          · exact List.mem_cons_of_mem c0 (ih (hr ▸ List.mem_cons_self t1 ts) hc2)
        · exact List.mem_cons_of_mem c0 (ih (hr ▸ List.mem_cons_of_mem t1 ht2) hc)

theorem splitOnChar_of_not_mem {sep : Char} {t : Str} (h : sep ∉ t) :
    splitOnChar sep t = [t] := by
  induction t with
  | nil => rfl
  | cons c cs ih =>
    have hc : c ≠ sep := fun he => h (he ▸ List.mem_cons_self c cs)
    have hcs : sep ∉ cs := fun hm => h (List.mem_cons_of_mem c hm)
    simp only [splitOnChar, if_neg hc, ih hcs]

theorem splitOnChar_append_sep {sep : Char} {t rest : Str} (h : sep ∉ t) :
    splitOnChar sep (t ++ sep :: rest) = t :: splitOnChar sep rest := by
  induction t with
  | nil => simp [splitOnChar]
  | cons c cs ih =>
    have hc : c ≠ sep := fun he => h (he ▸ List.mem_cons_self c cs)
    have hcs : sep ∉ cs := fun hm => h (List.mem_cons_of_mem c hm)
    simp only [List.cons_append, splitOnChar, if_neg hc]
    rw [show cs.append (sep :: rest) = cs ++ sep :: rest from rfl, ih hcs]

/-- Round trip: splitting a joined token list recovers the tokens, provided the
list is nonempty and no token contains the separator. -/
theorem splitOnChar_joinChar (sep : Char) :
    ∀ (l : List Str), l ≠ [] → (∀ t ∈ l, sep ∉ t) →
      splitOnChar sep (joinChar sep l) = l
  | [], hne, _ => absurd rfl hne
  | [t], _, h => by
    simpa [joinChar] using splitOnChar_of_not_mem (h t (by simp))
  | t :: t' :: ts, _, h => by
    have ht : sep ∉ t := h t (by simp)
    have hrec : splitOnChar sep (joinChar sep (t' :: ts)) = t' :: ts :=
      splitOnChar_joinChar sep (t' :: ts) (by simp)
        (fun u hu => h u (List.mem_cons_of_mem t hu))
    calc splitOnChar sep (joinChar sep (t :: t' :: ts))
        = splitOnChar sep (t ++ sep :: joinChar sep (t' :: ts)) := rfl
      _ = t :: splitOnChar sep (joinChar sep (t' :: ts)) := splitOnChar_append_sep ht
      _ = t :: t' :: ts := by rw [hrec]

/-- The character for a decimal digit `d < 10`. -/
def digitChar (d : Nat) : Char := Char.ofNat (48 + d)

/-- Python `str(n)` for a natural number: its decimal digits, most significant
first. Fuel-based so that it reduces by kernel computation. -/
def natToStrAux : Nat → Nat → Str
  | 0, _ => []
  | fuel + 1, n =>
    if n < 10 then [digitChar n]
    else natToStrAux fuel (n / 10) ++ [digitChar (n % 10)]

def natToStr (n : Nat) : Str := natToStrAux (n + 1) n

/-- The value Python `int()` computes on an all-digit string. -/
def digitsToNat (s : Str) : Nat := s.foldl (fun a c => a * 10 + (c.toNat - 48)) 0

theorem digitChar_toNat {d : Nat} (h : d < 10) : (digitChar d).toNat = 48 + d := by
  interval_cases d <;> rfl

theorem digitsToNat_append_singleton (s : Str) (c : Char) :
    digitsToNat (s ++ [c]) = digitsToNat s * 10 + (c.toNat - 48) := by
  simp [digitsToNat, List.foldl_append]

theorem natToStrAux_spec :
    ∀ (fuel n : Nat), n < fuel →
      digitsToNat (natToStrAux fuel n) = n ∧ natToStrAux fuel n ≠ [] ∧
        ∀ c ∈ natToStrAux fuel n, 48 ≤ c.toNat ∧ c.toNat ≤ 57
  | 0, n, h => absurd h (Nat.not_lt_zero n)
  | fuel + 1, n, h => by
    by_cases hn : n < 10
    · refine ⟨?_, by simp [natToStrAux, hn], ?_⟩
      · simp [natToStrAux, hn, digitsToNat, digitChar_toNat hn]
      · intro c hc
        simp only [natToStrAux, if_pos hn, List.mem_singleton] at hc
        subst hc
        rw [digitChar_toNat hn]
        omega
    · have hpos : 0 < n := by omega
      have hdiv : n / 10 < n := Nat.div_lt_self hpos (by omega)
      have hfuel : n / 10 < fuel := by omega
      obtain ⟨ih1, _, ih3⟩ := natToStrAux_spec fuel (n / 10) hfuel
      refine ⟨?_, by simp [natToStrAux, hn], ?_⟩
      · rw [natToStrAux, if_neg hn, digitsToNat_append_singleton, ih1,
          digitChar_toNat (Nat.mod_lt n (by omega))]
        omega
      · intro c hc
        rw [natToStrAux, if_neg hn, List.mem_append, List.mem_singleton] at hc
        rcases hc with hc | hc
        · exact ih3 c hc
        · subst hc
          rw [digitChar_toNat (Nat.mod_lt n (by omega))]
          have hm := Nat.mod_lt n (show 0 < 10 by omega)
          omega

theorem digitsToNat_natToStr (n : Nat) : digitsToNat (natToStr n) = n :=
  (natToStrAux_spec (n + 1) n (Nat.lt_succ_self n)).1

theorem natToStr_ne_nil (n : Nat) : natToStr n ≠ [] :=
  (natToStrAux_spec (n + 1) n (Nat.lt_succ_self n)).2.1

theorem natToStr_digit_range (n : Nat) : ∀ c ∈ natToStr n, 48 ≤ c.toNat ∧ c.toNat ≤ 57 :=
  (natToStrAux_spec (n + 1) n (Nat.lt_succ_self n)).2.2

/-- The whitespace characters of CPython `str.strip()` / `str.isspace()`:
U+0009–U+000D, U+001C–U+001F, the space, U+0085, U+00A0, U+1680,
U+2000–U+200A, U+2028, U+2029, U+202F, U+205F and U+3000. -/
def pyIsSpaceChar (c : Char) : Bool :=
  decide ((9 ≤ c.toNat ∧ c.toNat ≤ 13) ∨ (28 ≤ c.toNat ∧ c.toNat ≤ 31) ∨
    c.toNat = 32 ∨ c.toNat = 133 ∨ c.toNat = 160 ∨ c.toNat = 5760 ∨
    (8192 ≤ c.toNat ∧ c.toNat ≤ 8202) ∨ c.toNat = 8232 ∨ c.toNat = 8233 ∨
    c.toNat = 8239 ∨ c.toNat = 8287 ∨ c.toNat = 12288)

/-- The decimal digit characters (Unicode category Nd) with their values:
the digits Python `int()` accepts. The table covers the ASCII, Arabic-Indic,
extended Arabic-Indic, Devanagari and fullwidth ranges; the remaining Nd
scripts behave the same way and are outside the modelled character set. -/
def pyDecimalDigitVal (c : Char) : Option Nat :=
  if 48 ≤ c.toNat ∧ c.toNat ≤ 57 then some (c.toNat - 48)
  else if 1632 ≤ c.toNat ∧ c.toNat ≤ 1641 then some (c.toNat - 1632)
  else if 1776 ≤ c.toNat ∧ c.toNat ≤ 1785 then some (c.toNat - 1776)
  else if 2406 ≤ c.toNat ∧ c.toNat ≤ 2415 then some (c.toNat - 2406)
  else if 65296 ≤ c.toNat ∧ c.toNat ≤ 65305 then some (c.toNat - 65296)
  else none

/-- Digit characters that are not decimal (Unicode numeric type Digit): the
superscript digits `'¹'`, `'²'`, `'³'`, `'⁰'`, `'⁴'`–`'⁹'` and the subscript
digits `'₀'`–`'₉'`. Python `str.isdigit()` accepts them but `int()` raises
on them. -/
def pyDigitNonDecimal (c : Char) : Bool :=
  decide (c.toNat = 178 ∨ c.toNat = 179 ∨ c.toNat = 185 ∨ c.toNat = 8304 ∨
    (8308 ≤ c.toNat ∧ c.toNat ≤ 8313) ∨ (8320 ≤ c.toNat ∧ c.toNat ≤ 8329))

/-- One character as seen by Python `str.isdigit()`: a decimal digit or a
non-decimal digit character. -/
def pyIsDigitChar (c : Char) : Bool :=
  (pyDecimalDigitVal c).isSome || pyDigitNonDecimal c

/-- Python `str.isdigit()`: false on the empty string, else every character a
digit character. -/
def pyIsdigit (s : Str) : Bool := !s.isEmpty && s.all pyIsDigitChar

/-- Python `str.strip()`: drop leading and trailing whitespace. -/
def pyStrip (s : Str) : Str :=
  ((s.dropWhile pyIsSpaceChar).reverse.dropWhile pyIsSpaceChar).reverse

/-- After the first digit, `int()` accepts further decimal digits with single
underscores allowed between digits. -/
def pyIntTail : Str → Bool
  | [] => true
  | c :: rest =>
    if c = '_' then
      match rest with
      | [] => false
      | c2 :: rest2 => (pyDecimalDigitVal c2).isSome && pyIntTail rest2
    else (pyDecimalDigitVal c).isSome && pyIntTail rest

/-- The digit run `int()` accepts after the optional sign: a leading decimal
digit, then `pyIntTail`. -/
def pyIntBody : Str → Bool
  | [] => false
  | c :: rest => (pyDecimalDigitVal c).isSome && pyIntTail rest

/-- Value of a run of decimal digits (underscores removed by the caller). -/
def decDigitsVal (s : Str) : Nat :=
  s.foldl (fun a c => a * 10 + (pyDecimalDigitVal c).getD 0) 0

/-- Python `int(s)` on a string: optional surrounding whitespace, an optional
sign, then decimal digits with single underscores permitted between digits;
any other shape — in particular a non-decimal digit character such as `'²'` —
raises `ValueError` (`none`). -/
def pyInt (s : Str) : Option Int :=
  match pyStrip s with
  | [] => none
  | c :: rest =>
    if c = '+' then
      (if pyIntBody rest then
        some ((decDigitsVal (rest.filter (fun c2 => !(c2 == '_'))) : Nat) : Int)
       else none)
    else if c = '-' then
      (if pyIntBody rest then
        some (-((decDigitsVal (rest.filter (fun c2 => !(c2 == '_'))) : Nat) : Int))
       else none)
    else
      (if pyIntBody (c :: rest) then
        some ((decDigitsVal ((c :: rest).filter (fun c2 => !(c2 == '_'))) : Nat) : Int)
       else none)

theorem pyDecimalDigitVal_ascii {c : Char} (h1 : 48 ≤ c.toNat) (h2 : c.toNat ≤ 57) :
    pyDecimalDigitVal c = some (c.toNat - 48) := by
  unfold pyDecimalDigitVal
  rw [if_pos ⟨h1, h2⟩]

theorem pyDecimalDigitVal_isSome_iff {c : Char} :
    (pyDecimalDigitVal c).isSome = true ↔
      (48 ≤ c.toNat ∧ c.toNat ≤ 57) ∨ (1632 ≤ c.toNat ∧ c.toNat ≤ 1641) ∨
      (1776 ≤ c.toNat ∧ c.toNat ≤ 1785) ∨ (2406 ≤ c.toNat ∧ c.toNat ≤ 2415) ∨
      (65296 ≤ c.toNat ∧ c.toNat ≤ 65305) := by
  unfold pyDecimalDigitVal
  split_ifs with h1 h2 h3 h4 h5
  · simpa using Or.inl h1
  · simpa using Or.inr (Or.inl h2)
  · simpa using Or.inr (Or.inr (Or.inl h3))
  · simpa using Or.inr (Or.inr (Or.inr (Or.inl h4)))
  · simpa using Or.inr (Or.inr (Or.inr (Or.inr h5)))
  · simp only [Option.isSome_none]
    constructor
    · intro hcon
      exact absurd hcon (by simp)
    · intro hcon
      exact absurd hcon (by omega)

theorem ascii_digit_range {c : Char} (hd : pyIsDigitChar c = true)
    (ha : c.toNat < 128) : 48 ≤ c.toNat ∧ c.toNat ≤ 57 := by
  rw [pyIsDigitChar, Bool.or_eq_true] at hd
  rcases hd with hd | hd
  · have := pyDecimalDigitVal_isSome_iff.mp hd
    omega
  · simp only [pyDigitNonDecimal, decide_eq_true_eq] at hd
    omega

theorem not_pyspace_of_pyDigit {c : Char} (h : pyIsDigitChar c = true) :
    pyIsSpaceChar c = false := by
  rw [pyIsDigitChar, Bool.or_eq_true] at h
  simp only [pyIsSpaceChar, decide_eq_false_iff_not]
  rcases h with h | h
  · have := pyDecimalDigitVal_isSome_iff.mp h
    omega
  · simp only [pyDigitNonDecimal, decide_eq_true_eq] at h
    omega

theorem pyIsdigit_natToStr (n : Nat) : pyIsdigit (natToStr n) = true := by
  have h1 := natToStr_ne_nil n
  have h2 := natToStr_digit_range n
  simp only [pyIsdigit, Bool.and_eq_true, Bool.not_eq_true', List.isEmpty_eq_false,
    List.all_eq_true]
  refine ⟨by simpa using h1, ?_⟩
  intro c hc
  obtain ⟨ha, hb⟩ := h2 c hc
  simp [pyIsDigitChar, pyDecimalDigitVal_ascii ha hb]

theorem pyStrip_of_all_digits {s : Str} (hne : s ≠ [])
    (h : ∀ c ∈ s, pyIsDigitChar c = true) : pyStrip s = s := by
  have hdrop : ∀ t : Str, t ≠ [] → (∀ c ∈ t, pyIsDigitChar c = true) →
      t.dropWhile pyIsSpaceChar = t := by
    intro t ht hall
    cases t with
    | nil => exact absurd rfl ht
    | cons c cs =>
      rw [List.dropWhile_cons, not_pyspace_of_pyDigit (hall c (by simp))]
      simp
  have h1 : s.dropWhile pyIsSpaceChar = s := hdrop s hne h
  have h2 : s.reverse.dropWhile pyIsSpaceChar = s.reverse := by
    refine hdrop s.reverse (by simpa using hne) ?_
    intro c hc
    exact h c (List.mem_reverse.mp hc)
  simp [pyStrip, h1, h2]

theorem pyIntTail_of_digits :
    ∀ {t : Str}, (∀ c ∈ t, 48 ≤ c.toNat ∧ c.toNat ≤ 57) → pyIntTail t = true
  | [], _ => rfl
  | c :: rest, h => by
    have hc := h c (List.mem_cons_self c rest)
    have hunder : c ≠ '_' := by
      intro he
      rw [he] at hc
      have h95 : ('_' : Char).toNat = 95 := rfl
      omega
    unfold pyIntTail
    rw [if_neg hunder, pyDecimalDigitVal_ascii hc.1 hc.2,
      pyIntTail_of_digits (fun c2 hc2 => h c2 (List.mem_cons_of_mem c hc2))]
    rfl

theorem decDigitsVal_foldl_eq :
    ∀ (t : Str) (a : Nat), (∀ c ∈ t, 48 ≤ c.toNat ∧ c.toNat ≤ 57) →
      t.foldl (fun a2 c => a2 * 10 + (pyDecimalDigitVal c).getD 0) a =
        t.foldl (fun a2 c => a2 * 10 + (c.toNat - 48)) a
  | [], _, _ => rfl
  | c :: rest, a, h => by
    have hc := h c (List.mem_cons_self c rest)
    simp only [List.foldl_cons, pyDecimalDigitVal_ascii hc.1 hc.2, Option.getD_some]
    exact decDigitsVal_foldl_eq rest _ (fun c2 hc2 => h c2 (List.mem_cons_of_mem c hc2))

/-- On a token of decimal ASCII digits, `int()` succeeds and computes the
digit value. -/
theorem pyInt_of_decimal_digits {t : Str} (hne : t ≠ [])
    (h : ∀ c ∈ t, 48 ≤ c.toNat ∧ c.toNat ≤ 57) :
    pyInt t = some ((digitsToNat t : Nat) : Int) := by
  have hdigit : ∀ c ∈ t, pyIsDigitChar c = true := by
    intro c hc
    obtain ⟨h1, h2⟩ := h c hc
    simp [pyIsDigitChar, pyDecimalDigitVal_ascii h1 h2]
  have hstrip : pyStrip t = t := pyStrip_of_all_digits hne hdigit
  have hnounder : t.filter (fun c2 => !(c2 == '_')) = t := by
    refine List.filter_eq_self.mpr ?_
    intro c2 hc2
    obtain ⟨h1, h2⟩ := h c2 hc2
    have hval : c2 ≠ '_' := by
      intro he
      rw [he] at h2
      have h95 : ('_' : Char).toNat = 95 := rfl
      omega
    simp [hval]
  have hval : decDigitsVal t = digitsToNat t := decDigitsVal_foldl_eq t 0 h
  cases t with
  | nil => exact absurd rfl hne
  | cons c rest =>
    have hc := h c (List.mem_cons_self c rest)
    have hplus : c ≠ '+' := by
      intro he
      rw [he] at hc
      have h43 : ('+' : Char).toNat = 43 := rfl
      omega
    have hminus : c ≠ '-' := by
      intro he
      rw [he] at hc
      have h45 : ('-' : Char).toNat = 45 := rfl
      omega
    have hbody : pyIntBody (c :: rest) = true := by
      simp [pyIntBody, pyDecimalDigitVal_ascii hc.1 hc.2,
        pyIntTail_of_digits (fun c2 hc2 => h c2 (List.mem_cons_of_mem c hc2))]
    unfold pyInt
    rw [hstrip]
    simp only [if_neg hplus, if_neg hminus, hbody, if_true]
    rw [hnounder, hval]

/-- The word-id parse in `get_today_puzzle` (app.py line 41): split the stored
string on `','`, keep the tokens `str.isdigit` accepts, convert each with
`int()`, modelled by `digitsToNat`. The model is exact on decimal-digit
tokens — the only tokens this parse meets on strings the app itself stores;
on a kept non-decimal digit token such as `"²"` the real `int()` raises
instead, so conversion safety holds only on decimal-digit tokens. -/
def parseWordIds (s : Str) : List Nat :=
  ((splitOnChar ',' s).filter pyIsdigit).map digitsToNat

/-- Round trip through storage: parsing the comma-joined rendering of a
nonempty id list gives back exactly that list. -/
theorem parseWordIds_joinChar {ids : List Nat} (h : ids ≠ []) :
    parseWordIds (joinChar ',' (ids.map natToStr)) = ids := by
  have hsplit : splitOnChar ',' (joinChar ',' (ids.map natToStr)) = ids.map natToStr := by
    refine splitOnChar_joinChar ',' (ids.map natToStr) (by simpa using h) ?_
    intro t ht hmem
    obtain ⟨n, _, rfl⟩ := List.mem_map.mp ht
    obtain ⟨ha, hb⟩ := natToStr_digit_range n ',' hmem
    have h44 : (',' : Char).toNat = 44 := rfl
    omega
  rw [parseWordIds, hsplit]
  have hfilter : (ids.map natToStr).filter pyIsdigit = ids.map natToStr := by
    refine List.filter_eq_self.mpr ?_
    intro t ht
    obtain ⟨n, _, rfl⟩ := List.mem_map.mp ht
    exact pyIsdigit_natToStr n
  rw [hfilter, List.map_map]
  have : digitsToNat ∘ natToStr = id := funext fun n => digitsToNat_natToStr n
  rw [this, List.map_id]

/-! ## Data model (schema: tables `words`, `daily_puzzles`, `scores`) -/

/-- A row of the `words` table. -/
structure Word where
  id : Nat
  word : Str
  hint : Str
  syllables : Str
  last_used_date : Option Nat
deriving DecidableEq

/-- A row of the `scores` table. -/
structure Score where
  puzzle_date : Nat
  nickname : Str
  time_seconds : Int
deriving DecidableEq

/-- The database: the three tables. `daily_puzzles` is a list of
`(puzzle_date, word_ids string)` pairs with `puzzle_date` as primary key. -/
structure DB where
  words : List Word
  daily_puzzles : List (Nat × Str)
  scores : List Score
deriving DecidableEq

/-! ## database.py -/

/-- The `WHERE` clause of `get_words_for_puzzle`:
`last_used_date IS NULL OR last_used_date <= cutoff`. -/
def eligibleOn (cutoff : Nat) (w : Word) : Bool :=
  match w.last_used_date with
  | none => true
  | some d => decide (d ≤ cutoff)

/-- `database.get_words_for_puzzle` (lines 71-105): select the words whose
`last_used_date` is null or at most `today - exclude_used_within_days`,
order randomly (`ORDER BY RANDOM()`, the shuffle parameter), cap at `count`. -/
def get_words_for_puzzle (today count exclude_used_within_days : Nat)
    (shuffleW : List Word → List Word) (db : DB) : List Word :=
  let cutoff_date := today - exclude_used_within_days
  (shuffleW (db.words.filter (eligibleOn cutoff_date))).take count

/-- The dictionary `word_map` built inside `get_word_details`: later fetched
rows with the same id overwrite earlier ones, so lookup yields the last row
of the given id. -/
def wordMapGet (rows : List Word) (i : Nat) : Option Word :=
  (rows.filter (fun w => w.id == i)).getLast?

/-- `database.get_word_details` (lines 107-128): on an empty id list return
`[]`; else fetch the rows whose id is in the list (SQL `IN`), then reorder
them to match the input id order, dropping ids with no row. -/
def get_word_details (ws : List Word) (word_ids_list : List Nat) : List Word :=
  match word_ids_list with
  | [] => []
  | _ =>
    let fetched := ws.filter (fun w => word_ids_list.contains w.id)
    word_ids_list.filterMap (wordMapGet fetched)

/-- `database.update_last_used_date` (lines 130-151):
`UPDATE words SET last_used_date = ? WHERE id IN (...)`. -/
def update_last_used_date (word_ids_list : List Nat) (puzzle_date : Nat) (db : DB) : DB :=
  { db with
    words := db.words.map (fun w =>
      if word_ids_list.contains w.id then { w with last_used_date := some puzzle_date }
      else w) }

/-- `database.get_daily_puzzle` (lines 155-177): the stored word-id string for
a date, if any. -/
def get_daily_puzzle (puzzle_date : Nat) (db : DB) : Option Str :=
  (db.daily_puzzles.find? (fun p => p.1 == puzzle_date)).map (fun p => p.2)

/-- `database.save_daily_puzzle` (lines 179-199): join the ids with `','` and
`INSERT OR REPLACE` — any row with the same date is deleted, the new row
inserted. -/
def save_daily_puzzle (puzzle_date : Nat) (word_ids_list : List Nat) (db : DB) : DB :=
  { db with
    daily_puzzles :=
      (puzzle_date, joinChar ',' (word_ids_list.map natToStr)) ::
        db.daily_puzzles.filter (fun p => p.1 != puzzle_date) }

/-- `database.save_score` (lines 203-221): plain `INSERT` of one row. -/
def save_score (puzzle_date : Nat) (nickname : Str) (time_seconds : Int) (db : DB) : DB :=
  { db with scores := db.scores ++ [⟨puzzle_date, nickname, time_seconds⟩] }

/-- The comparison of `ORDER BY time_seconds ASC`. -/
def scoreLE (a b : Score) : Bool := decide (a.time_seconds ≤ b.time_seconds)

/-- `database.get_daily_scores` (lines 223-247): the scores of the date,
sorted by time ascending, capped at `limit` (default 10). SQLite breaks ties
arbitrarily; the model sorts with a deterministic merge sort. -/
def get_daily_scores (puzzle_date : Nat) (limit : Nat) (db : DB) : List Score :=
  ((db.scores.filter (fun s => s.puzzle_date == puzzle_date)).mergeSort scoreLE).take limit

/-! ## app.py -/

/-- Result of the `/api/puzzle/today` handler, carrying the parts of the JSON
payload the claims mention. -/
inductive TodayResult where
  | notEnoughWords
  | detailsError
  | ok (wordIds : List Nat) (hints : List (Nat × Str)) (syllables : List Str)
      (info : List (Nat × List Str))
deriving DecidableEq

/-- HTTP status code of a `TodayResult`. -/
def TodayResult.status : TodayResult → Nat
  | notEnoughWords => 500
  | detailsError => 500
  | ok _ _ _ _ => 200

/-- Second half of `get_today_puzzle` (app.py lines 64-105): fetch the details
of the word ids, respond 500 if none or not all were found, else build the
payload; the pooled syllables are shuffled (`random.shuffle`) by the
parameter. -/
def build_puzzle_response (shuffleS : List Str → List Str) (word_ids : List Nat)
    (db : DB) : TodayResult × DB :=
  let word_details := get_word_details db.words word_ids
  if word_details.isEmpty || word_details.length != word_ids.length then
    (.detailsError, db)
  else
    let hints := word_details.map (fun w => (w.id, w.hint))
    let all_syllables := (word_details.map (fun w => splitOnChar '-' w.syllables)).flatten
    let info := word_details.map (fun w => (w.id, splitOnChar '-' w.syllables))
    (.ok word_ids hints (shuffleS all_syllables) info, db)

/-- `app.get_today_puzzle` (app.py lines 30-105): read-through cache on
`daily_puzzles` — if a record for today exists parse and use it, else select
five fresh words, fail with 500 when fewer are eligible, otherwise persist
the choice and stamp `last_used_date`. -/
def get_today_puzzle (today : Nat) (shuffleW : List Word → List Word)
    (shuffleS : List Str → List Str) (db : DB) : TodayResult × DB :=
  match get_daily_puzzle today db with
  | some word_ids_str => build_puzzle_response shuffleS (parseWordIds word_ids_str) db
  | none =>
    let words_for_puzzle := get_words_for_puzzle today 5 30 shuffleW db
    if words_for_puzzle.length < 5 then (.notEnoughWords, db)
    else
      let word_ids := words_for_puzzle.map (fun w => w.id)
      let db1 := save_daily_puzzle today word_ids db
      let db2 := update_last_used_date word_ids today db1
      build_puzzle_response shuffleS word_ids db2

/-- Result of the `/api/puzzle/check` handler. -/
inductive CheckResult where
  | notFound
  | result (correct : Bool)
deriving DecidableEq

/-- `app.check_word_attempt` (app.py lines 108-148), after the JSON-shape
validation: look the word up, 404 when absent, else exact ordered comparison
of the attempted ids against the stored syllable string split on `'-'`. -/
def check_word_attempt (word_id : Nat) (attempted_syllables : List Str) (db : DB) :
    CheckResult :=
  match get_word_details db.words [word_id] with
  | [] => .notFound
  | word_detail :: _ =>
    .result (attempted_syllables == splitOnChar '-' word_detail.syllables)

/-- Result of the `/api/scores` POST handler. -/
inductive SubmitResult where
  | badRequest
  | created
deriving DecidableEq

/-- HTTP status code of a `SubmitResult`. -/
def SubmitResult.status : SubmitResult → Nat
  | badRequest => 400
  | created => 201

/-- `app.submit_score` (app.py lines 152-186), after the JSON-shape
validation: a nickname that strips to empty, or a negative time, is rejected
with 400 before any write; otherwise the stripped nickname and time are
stored for today. -/
def submit_score (today : Nat) (nickname : Str) (timeSeconds : Int) (db : DB) :
    SubmitResult × DB :=
  if (pyStrip nickname).isEmpty then (.badRequest, db)
  else if timeSeconds < 0 then (.badRequest, db)
  else (.created, save_score today (pyStrip nickname) timeSeconds db)

/-- `app.get_leaderboard` (app.py lines 190-211): today's scores through
`get_daily_scores` with its default limit 10, shaped as (nickname, time). -/
def get_leaderboard (today : Nat) (db : DB) : List (Str × Int) :=
  (get_daily_scores today 10 db).map (fun s => (s.nickname, s.time_seconds))

/-! ## Claim theorems -/

/-- C1: `get_words_for_puzzle(count=5, exclude_used_within_days=30)` returns
only words whose `last_used_date` is null or at most the cutoff `today - 30`;
no word used inside the 30-day exclusion window is selected. Holds for any
random order (any permutation `shuffleW`). -/
theorem get_words_for_puzzle_respects_exclusion
    (today : Nat) (shuffleW : List Word → List Word)
    (hshuffle : ∀ l : List Word, (shuffleW l).Perm l) (db : DB) :
    ∀ w ∈ get_words_for_puzzle today 5 30 shuffleW db,
      w.last_used_date = none ∨ ∃ d, w.last_used_date = some d ∧ d ≤ today - 30 := by
  intro w hw
  have hw' : w ∈ (shuffleW (db.words.filter (eligibleOn (today - 30)))).take 5 := hw
  have h1 : w ∈ shuffleW (db.words.filter (eligibleOn (today - 30))) :=
    List.mem_of_mem_take hw'
  have h2 : w ∈ db.words.filter (eligibleOn (today - 30)) := (hshuffle _).mem_iff.mp h1
  have h3 : eligibleOn (today - 30) w = true := List.of_mem_filter h2
  unfold eligibleOn at h3
  cases hl : w.last_used_date with
  | none => exact Or.inl rfl
  | some d =>
    rw [hl] at h3
    simp only [decide_eq_true_eq] at h3
    exact Or.inr ⟨d, rfl, h3⟩

/-- Sample words and databases used by the witness theorems. -/
def mkWord (i : Nat) (c : Char) (lu : Option Nat) : Word := ⟨i, [c], ['h'], [c], lu⟩

def dbFive : DB :=
  ⟨[mkWord 1 'a' none, mkWord 2 'b' none, mkWord 3 'c' none,
    mkWord 4 'd' none, mkWord 5 'e' none], [], []⟩

def dbTwo : DB := ⟨[mkWord 1 'a' none, mkWord 2 'b' (some 99)], [], []⟩

/-- Witness for C1 at a concrete database and the identity shuffle. -/
theorem get_words_for_puzzle_respects_exclusion_witness :
    (mkWord 1 'a' none).last_used_date = none ∨
      ∃ d, (mkWord 1 'a' none).last_used_date = some d ∧ d ≤ 100 - 30 :=
  get_words_for_puzzle_respects_exclusion 100 id (fun l => List.Perm.refl l) dbFive
    (mkWord 1 'a' none) (by decide)

/-- C3: when no puzzle exists for today and fewer than five words are
eligible, `get_words_for_puzzle` returns the whole eligible (partial) set —
no fallback — and the today-puzzle handler answers HTTP 500 with the database
left unchanged (no daily puzzle persisted). -/
theorem get_today_puzzle_partial_set_500
    (today : Nat) (shuffleW : List Word → List Word) (shuffleS : List Str → List Str)
    (hshuffle : ∀ l : List Word, (shuffleW l).Perm l) (db : DB)
    (hnone : get_daily_puzzle today db = none)
    (hfew : (db.words.filter (eligibleOn (today - 30))).length < 5) :
    (get_words_for_puzzle today 5 30 shuffleW db).Perm
        (db.words.filter (eligibleOn (today - 30))) ∧
    get_today_puzzle today shuffleW shuffleS db = (.notEnoughWords, db) ∧
    (get_today_puzzle today shuffleW shuffleS db).1.status = 500 ∧
    get_daily_puzzle today (get_today_puzzle today shuffleW shuffleS db).2 = none := by
  have hlen : (shuffleW (db.words.filter (eligibleOn (today - 30)))).length =
      (db.words.filter (eligibleOn (today - 30))).length := (hshuffle _).length_eq
  have htake : (shuffleW (db.words.filter (eligibleOn (today - 30)))).take 5 =
      shuffleW (db.words.filter (eligibleOn (today - 30))) :=
    List.take_of_length_le (by omega)
  have hperm : (get_words_for_puzzle today 5 30 shuffleW db).Perm
      (db.words.filter (eligibleOn (today - 30))) := by
    show ((shuffleW (db.words.filter (eligibleOn (today - 30)))).take 5).Perm _
    rw [htake]
    exact hshuffle _
  have hfewtake : (get_words_for_puzzle today 5 30 shuffleW db).length < 5 := by
    have := hperm.length_eq
    omega
  have hmain : get_today_puzzle today shuffleW shuffleS db = (.notEnoughWords, db) := by
    unfold get_today_puzzle
    rw [hnone]
    simp only [if_pos hfewtake]
  refine ⟨hperm, hmain, by rw [hmain]; rfl, by rw [hmain]; exact hnone⟩

/-- Witness for C3 at a concrete two-word database. -/
theorem get_today_puzzle_partial_set_500_witness :
    (get_words_for_puzzle 100 5 30 id dbTwo).Perm
        (dbTwo.words.filter (eligibleOn (100 - 30))) ∧
    get_today_puzzle 100 id id dbTwo = (.notEnoughWords, dbTwo) ∧
    (get_today_puzzle 100 id id dbTwo).1.status = 500 ∧
    get_daily_puzzle 100 (get_today_puzzle 100 id id dbTwo).2 = none :=
  get_today_puzzle_partial_set_500 100 id id (fun l => List.Perm.refl l) dbTwo
    (by decide) (by decide)

/-- C4: for the stored word found for a given identifier, the check operation
answers `correct := true` exactly when the submitted syllable list equals the
stored syllable string split on `'-'` (same elements, same order), and
`correct := false` exactly otherwise — no partial credit. -/
theorem check_word_attempt_exact_match
    (db : DB) (word_id : Nat) (att : List Str) (w : Word) (rest : List Word)
    (hfind : get_word_details db.words [word_id] = w :: rest) :
    (check_word_attempt word_id att db = .result true ↔
      att = splitOnChar '-' w.syllables) ∧
    (check_word_attempt word_id att db = .result false ↔
      att ≠ splitOnChar '-' w.syllables) := by
  unfold check_word_attempt
  rw [hfind]
  constructor
  · constructor
    · intro h
      have := CheckResult.result.inj h
      simpa using this
    · intro h
      simp [h]
  · constructor
    · intro h hcontra
      have := CheckResult.result.inj h
      rw [hcontra] at this
      simp at this
    · intro h
      have : (att == splitOnChar '-' w.syllables) = false := by
        simpa using h
      simp [this]

/-- Witness for C4: word 2 of a concrete database, one correct and the
relevant equivalences at a wrong attempt shape. -/
theorem check_word_attempt_exact_match_witness :
    ((check_word_attempt 1 [['a']] dbFive = .result true ↔
        [['a']] = splitOnChar '-' (mkWord 1 'a' none).syllables) ∧
      (check_word_attempt 1 [['a']] dbFive = .result false ↔
        [['a']] ≠ splitOnChar '-' (mkWord 1 'a' none).syllables)) :=
  check_word_attempt_exact_match dbFive 1 [['a']] (mkWord 1 'a' none) [] (by decide)

/-- C6: a submission with negative `timeSeconds` or an all-whitespace (or
empty) nickname — whitespace in Python's sense, so also `'\x0b'`, `'\x0c'`
or the no-break space — is answered with HTTP 400 and the database, in
particular the scores table, is unchanged. -/
theorem submit_score_rejects_invalid
    (today : Nat) (nickname : Str) (t : Int) (db : DB)
    (h : t < 0 ∨ ∀ c ∈ nickname, pyIsSpaceChar c = true) :
    (submit_score today nickname t db).1.status = 400 ∧
    (submit_score today nickname t db).2 = db ∧
    (submit_score today nickname t db).2.scores = db.scores := by
  have hmain : (submit_score today nickname t db).1 = .badRequest ∧
      (submit_score today nickname t db).2 = db := by
    unfold submit_score
    rcases h with ht | hws
    · by_cases hnick : (pyStrip nickname).isEmpty
      · rw [if_pos hnick]
        exact ⟨rfl, rfl⟩
      · rw [if_neg hnick, if_pos ht]
        exact ⟨rfl, rfl⟩
    · have hstrip : pyStrip nickname = [] := by
        have h1 : nickname.dropWhile pyIsSpaceChar = [] :=
          List.dropWhile_eq_nil_iff.mpr (fun c hc => hws c hc)
        simp [pyStrip, h1]
      rw [if_pos (by simp [hstrip])]
      exact ⟨rfl, rfl⟩
  exact ⟨by rw [hmain.1]; rfl, hmain.2, by rw [hmain.2]⟩

/-- Witness for C6: a nickname of a space and a vertical tab (U+000B, which
Python strips but is not ASCII-pretty whitespace) with a non-negative time. -/
theorem submit_score_rejects_invalid_witness :
    (submit_score 100 [' ', Char.ofNat 11] 5 dbFive).1.status = 400 ∧
    (submit_score 100 [' ', Char.ofNat 11] 5 dbFive).2 = dbFive ∧
    (submit_score 100 [' ', Char.ofNat 11] 5 dbFive).2.scores = dbFive.scores :=
  submit_score_rejects_invalid 100 [' ', Char.ofNat 11] 5 dbFive (Or.inr (by decide))

/-- C5: the leaderboard read for a date returns at most 10 entries, sorted
ascending by `time_seconds`, and they are lowest-time entries: the rest of
that date's scores all have times at least as large. -/
theorem get_daily_scores_top_ten (db : DB) (d : Nat) :
    (get_daily_scores d 10 db).length ≤ 10 ∧
    (get_daily_scores d 10 db).Pairwise (fun a b => a.time_seconds ≤ b.time_seconds) ∧
    ∃ rest, ((get_daily_scores d 10 db) ++ rest).Perm
        (db.scores.filter (fun s => s.puzzle_date == d)) ∧
      ∀ a ∈ get_daily_scores d 10 db, ∀ b ∈ rest, a.time_seconds ≤ b.time_seconds := by
  have htrans : ∀ (a b c : Score), scoreLE a b → scoreLE b c → scoreLE a c := by
    intro a b c hab hbc
    simp only [scoreLE, decide_eq_true_eq] at hab hbc ⊢
    omega
  have htotal : ∀ (a b : Score), scoreLE a b || scoreLE b a := by
    intro a b
    simp only [scoreLE, Bool.or_eq_true, decide_eq_true_eq]
    omega
  have hdef : get_daily_scores d 10 db =
      ((db.scores.filter (fun s => s.puzzle_date == d)).mergeSort scoreLE).take 10 := rfl
  set l := db.scores.filter (fun s => s.puzzle_date == d) with hl
  have hsorted : (l.mergeSort scoreLE).Pairwise (fun a b => scoreLE a b) :=
    List.sorted_mergeSort htrans htotal l
  have hsplit : (l.mergeSort scoreLE).take 10 ++ (l.mergeSort scoreLE).drop 10 =
      l.mergeSort scoreLE := List.take_append_drop 10 _
  refine ⟨?_, ?_, (l.mergeSort scoreLE).drop 10, ?_, ?_⟩
  · rw [hdef]
    exact List.length_take_le 10 _
  · rw [hdef]
    have hpw : ((l.mergeSort scoreLE).take 10).Pairwise (fun a b => scoreLE a b) :=
      List.Pairwise.sublist (List.take_sublist 10 _) hsorted
    exact hpw.imp (fun hab => by simpa [scoreLE] using hab)
  · rw [hdef, hsplit]
    exact List.mergeSort_perm l scoreLE
  · rw [← hsplit] at hsorted
    obtain ⟨-, -, hcross⟩ := List.pairwise_append.mp hsorted
    intro a ha b hb
    have := hcross a (by rw [hdef] at ha; exact ha) b hb
    simpa [scoreLE] using this

/-- C7: `save_daily_puzzle` keeps the at-most-one-record-per-date invariant:
after a save, the saved date has exactly one record (holding the new id
string — replace, not append), every date still has at most one record, and
other dates' records are untouched. -/
theorem save_daily_puzzle_upsert (db : DB) (d : Nat) (ids : List Nat)
    (h : ∀ d', (db.daily_puzzles.countP (fun p => p.1 == d')) ≤ 1) :
    (∀ d', ((save_daily_puzzle d ids db).daily_puzzles.countP (fun p => p.1 == d')) ≤ 1) ∧
    ((save_daily_puzzle d ids db).daily_puzzles.countP (fun p => p.1 == d)) = 1 ∧
    get_daily_puzzle d (save_daily_puzzle d ids db) =
      some (joinChar ',' (ids.map natToStr)) ∧
    (∀ d', d' ≠ d →
      (save_daily_puzzle d ids db).daily_puzzles.filter (fun p => p.1 == d') =
        db.daily_puzzles.filter (fun p => p.1 == d')) := by
  have hone : ((save_daily_puzzle d ids db).daily_puzzles.countP (fun p => p.1 == d)) = 1 := by
    show ((((d, joinChar ',' (ids.map natToStr))) ::
      db.daily_puzzles.filter (fun p => p.1 != d)).countP (fun p => p.1 == d)) = 1
    rw [List.countP_cons]
    have hzero : ((db.daily_puzzles.filter (fun p => p.1 != d)).countP
        (fun p => p.1 == d)) = 0 := by
      rw [List.countP_eq_zero]
      intro p hp
      have := List.of_mem_filter hp
      simp only [bne_iff_ne, ne_eq] at this
      simp [this]
    simp [hzero]
  refine ⟨?_, hone, ?_, ?_⟩
  · intro d'
    by_cases hd : d' = d
    · subst hd
      omega
    · show ((((d, joinChar ',' (ids.map natToStr))) ::
        db.daily_puzzles.filter (fun p => p.1 != d)).countP (fun p => p.1 == d')) ≤ 1
      rw [List.countP_cons]
      have hhead : ((d, joinChar ',' (ids.map natToStr)).1 == d') = false := by
        simp [Ne.symm hd]
      have htail : ((db.daily_puzzles.filter (fun p => p.1 != d)).countP
          (fun p => p.1 == d')) ≤ db.daily_puzzles.countP (fun p => p.1 == d') :=
        List.Sublist.countP_le _ (List.filter_sublist _)
      have := h d'
      simp [hhead]
      omega
  · simp [get_daily_puzzle, save_daily_puzzle]
  · intro d' hd
    show ((((d, joinChar ',' (ids.map natToStr))) ::
        db.daily_puzzles.filter (fun p => p.1 != d)).filter (fun p => p.1 == d')) =
      db.daily_puzzles.filter (fun p => p.1 == d')
    rw [List.filter_cons]
    have hhead : ((d, joinChar ',' (ids.map natToStr)).1 == d') = false := by
      simp [Ne.symm hd]
    rw [if_neg (by simp [hhead])]
    rw [List.filter_filter]
    apply List.filter_congr
    intro p _
    cases hb : (p.1 == d') with
    | false => simp
    | true =>
      have hp : p.1 = d' := by simpa using hb
      simp [hp, hd]

/-- Witness for C7 at a concrete table holding records for two dates. -/
theorem save_daily_puzzle_upsert_witness :
    (∀ d', (((save_daily_puzzle 7 [4, 5] ⟨[], [(7, ['1']), (9, ['2'])], []⟩).daily_puzzles.countP
        (fun p => p.1 == d')) ≤ 1)) ∧
    ((save_daily_puzzle 7 [4, 5] ⟨[], [(7, ['1']), (9, ['2'])], []⟩).daily_puzzles.countP
        (fun p => p.1 == 7)) = 1 ∧
    get_daily_puzzle 7 (save_daily_puzzle 7 [4, 5] ⟨[], [(7, ['1']), (9, ['2'])], []⟩) =
      some (joinChar ',' ([4, 5].map natToStr)) ∧
    (∀ d', d' ≠ 7 →
      (save_daily_puzzle 7 [4, 5] ⟨[], [(7, ['1']), (9, ['2'])], []⟩).daily_puzzles.filter
          (fun p => p.1 == d') =
        ([(7, ['1']), (9, ['2'])] : List (Nat × Str)).filter (fun p => p.1 == d')) :=
  save_daily_puzzle_upsert ⟨[], [(7, ['1']), (9, ['2'])], []⟩ 7 [4, 5] (by
    intro d'
    by_cases h7 : 7 = d'
    · subst h7
      decide
    · by_cases h9 : 9 = d'
      · subst h9
        decide
      · simp [List.countP_cons, List.countP_nil, h7, h9])

/-- Second projection of `build_puzzle_response` never changes the database. -/
theorem build_puzzle_response_snd (shuffleS : List Str → List Str)
    (word_ids : List Nat) (db : DB) : (build_puzzle_response shuffleS word_ids db).2 = db := by
  unfold build_puzzle_response
  dsimp only
  split <;> rfl

/-- C8: scores are append-only. `save_score` appends exactly one row and keeps
all existing rows; two submissions by the same nickname on the same date
coexist as two rows; and no other operation (`save_daily_puzzle`,
`update_last_used_date`, the today-puzzle handler) touches the scores table,
while the submit handler at most appends. -/
theorem save_score_append_only (db : DB) (d today : Nat) (n : Str) (t t2 : Int)
    (ids : List Nat) (shuffleW : List Word → List Word) (shuffleS : List Str → List Str) :
    (save_score d n t db).scores = db.scores ++ [⟨d, n, t⟩] ∧
    (∀ s ∈ db.scores, s ∈ (save_score d n t db).scores) ∧
    (save_score d n t2 (save_score d n t db)).scores =
      db.scores ++ [⟨d, n, t⟩, ⟨d, n, t2⟩] ∧
    (save_daily_puzzle d ids db).scores = db.scores ∧
    (update_last_used_date ids d db).scores = db.scores ∧
    ((get_today_puzzle today shuffleW shuffleS db).2).scores = db.scores ∧
    (∃ extra, ((submit_score today n t db).2).scores = db.scores ++ extra) := by
  refine ⟨rfl, ?_, by simp [save_score], rfl, rfl, ?_, ?_⟩
  · intro s hs
    exact List.mem_append_left _ hs
  · unfold get_today_puzzle
    cases hdp : get_daily_puzzle today db with
    | some s =>
      rw [build_puzzle_response_snd]
    | none =>
      dsimp only
      split
      · rfl
      · rw [build_puzzle_response_snd]
        rfl
  · unfold submit_score
    by_cases h1 : (pyStrip n).isEmpty
    · exact ⟨[], by simp [h1]⟩
    · by_cases h2 : t < 0
      · exact ⟨[], by simp [h1, h2]⟩
      · exact ⟨[⟨today, pyStrip n, t⟩], by simp [h1, h2, save_score]⟩

/-- Unfolding `get_word_details` to its filterMap form (both branches agree on
the empty list). -/
theorem get_word_details_eq (ws : List Word) (ids : List Nat) :
    get_word_details ws ids =
      ids.filterMap (wordMapGet (ws.filter (fun w => ids.contains w.id))) := by
  cases ids <;> rfl

/-- Restricting the fetched rows to ids occurring in the query list does not
change the dictionary lookup at a queried id. -/
theorem wordMapGet_filter_contains (ws : List Word) (ids : List Nat) (i : Nat)
    (hi : i ∈ ids) :
    wordMapGet (ws.filter (fun w => ids.contains w.id)) i = wordMapGet ws i := by
  unfold wordMapGet
  rw [List.filter_filter]
  congr 1
  apply List.filter_congr
  intro w _
  cases hb : (w.id == i) with
  | false => simp [hb]
  | true =>
    have hwi : w.id = i := by simpa using hb
    have hc : ids.contains i = true := List.elem_iff.mpr hi
    simp [hb, hwi, hc, hi]

/-- A row produced by the dictionary lookup has the queried id and is a stored
row. -/
theorem wordMapGet_some {ws : List Word} {i : Nat} {w : Word}
    (h : wordMapGet ws i = some w) : w.id = i ∧ w ∈ ws := by
  unfold wordMapGet at h
  have hmem := List.mem_of_getLast?_eq_some h
  exact ⟨by simpa using List.of_mem_filter hmem, List.mem_of_mem_filter hmem⟩

/-- The dictionary lookup succeeds exactly when some stored row has the id. -/
theorem wordMapGet_isSome (ws : List Word) (i : Nat) :
    (wordMapGet ws i).isSome = ws.any (fun w => w.id == i) := by
  unfold wordMapGet
  cases hany : ws.any (fun w => w.id == i) with
  | true =>
    obtain ⟨w, hw, hp⟩ := List.any_eq_true.mp hany
    have hmem : w ∈ ws.filter (fun w => w.id == i) := List.mem_filter.mpr ⟨hw, hp⟩
    exact List.getLast?_isSome.mpr (List.ne_nil_of_mem hmem)
  | false =>
    have hnil : ws.filter (fun w => w.id == i) = [] := by
      rw [List.filter_eq_nil_iff]
      intro a ha hp
      have hcontra : ws.any (fun w => w.id == i) = true := List.any_eq_true.mpr ⟨a, ha, hp⟩
      rw [hany] at hcontra
      exact Bool.false_ne_true hcontra
    simp [hnil]

/-- Map/filter description of looking every queried id up in the full table. -/
theorem filterMap_wordMapGet_spec (ws : List Word) :
    ∀ ids : List Nat,
      ((ids.filterMap (wordMapGet ws)).map (fun w => w.id) =
        ids.filter (fun i => ws.any (fun w => w.id == i))) ∧
      (∀ w ∈ ids.filterMap (wordMapGet ws), w ∈ ws)
  | [] => ⟨rfl, by simp⟩
  | i :: rest => by
    obtain ⟨ih1, ih2⟩ := filterMap_wordMapGet_spec ws rest
    cases hmg : wordMapGet ws i with
    | none =>
      have hany : ws.any (fun w => w.id == i) = false := by
        have h := wordMapGet_isSome ws i
        rw [hmg] at h
        simpa using h.symm
      constructor
      · simp [List.filterMap_cons, hmg, List.filter_cons, hany, ih1]
      · intro w hw
        simp only [List.filterMap_cons, hmg] at hw
        exact ih2 w hw
    | some w0 =>
      have hany : ws.any (fun w => w.id == i) = true := by
        have h := wordMapGet_isSome ws i
        rw [hmg] at h
        simpa using h.symm
      obtain ⟨hid, hmem⟩ := wordMapGet_some hmg
      constructor
      · simp [List.filterMap_cons, hmg, List.filter_cons, hany, ih1, hid]
      · intro w hw
        simp only [List.filterMap_cons, hmg, List.mem_cons] at hw
        rcases hw with rfl | hw
        · exact hmem
        · exact ih2 w hw

/-- C9: `get_word_details` returns the found rows in the order of the queried
ids, silently dropping ids with no row: the id projection of the result is
the id list filtered to present ids (duplicates once per occurrence), the
result length is that filtered length, and every returned row is stored. -/
theorem get_word_details_order_and_presence (ws : List Word) (ids : List Nat) :
    ((get_word_details ws ids).map (fun w => w.id) =
      ids.filter (fun i => ws.any (fun w => w.id == i))) ∧
    (get_word_details ws ids).length =
      (ids.filter (fun i => ws.any (fun w => w.id == i))).length ∧
    ∀ w ∈ get_word_details ws ids, w ∈ ws := by
  have hcongr : ∀ (l : List Nat) (f g : Nat → Option Word),
      (∀ i ∈ l, f i = g i) → l.filterMap f = l.filterMap g := by
    intro l f g h
    induction l with
    | nil => rfl
    | cons a l ih =>
      simp [List.filterMap_cons, h a (by simp),
        ih (fun i hi => h i (List.mem_cons_of_mem a hi))]
  have heq : get_word_details ws ids = ids.filterMap (wordMapGet ws) := by
    rw [get_word_details_eq]
    exact hcongr ids _ _ (fun i hi => wordMapGet_filter_contains ws ids i hi)
  obtain ⟨h1, h2⟩ := filterMap_wordMapGet_spec ws ids
  rw [heq]
  refine ⟨h1, ?_, h2⟩
  rw [← h1, List.length_map]

/-- C10 counterexample: on the stored string `"²"` the handler's digit filter
keeps the token `"²"` — Python `str.isdigit` is true of the superscript two —
yet `int()` raises on it (`none`): the integer conversion can fail on a
malformed stored string, refuting the claim as stated. -/
theorem parseWordIds_conversion_fails_on_superscript :
    (splitOnChar ',' ['²']).filter pyIsdigit = [['²']] ∧ pyInt ['²'] = none := by
  decide

/-- C10 (amended): for every stored string of ASCII characters, every token
kept by the digit filter converts with `int()` without failing, to a
non-negative integer, and the conversions agree elementwise with the
handler's parsed id list; on non-ASCII digit tokens such as `"²"` the filter
passes but the conversion raises. -/
theorem parseWordIds_conversion_safe_ascii (s : Str)
    (hascii : ∀ c ∈ s, c.toNat < 128) :
    ((splitOnChar ',' s).filter pyIsdigit).map pyInt =
      (parseWordIds s).map (fun n => some ((n : Nat) : Int)) ∧
    ∀ o ∈ ((splitOnChar ',' s).filter pyIsdigit).map pyInt,
      ∃ n : Nat, o = some ((n : Nat) : Int) ∧ (0 : Int) ≤ ((n : Nat) : Int) := by
  have htok : ∀ t ∈ (splitOnChar ',' s).filter pyIsdigit,
      pyInt t = some ((digitsToNat t : Nat) : Int) := by
    intro t ht
    have hmem := List.mem_of_mem_filter ht
    have hdig := List.of_mem_filter ht
    simp only [pyIsdigit, Bool.and_eq_true, Bool.not_eq_true', List.isEmpty_eq_false,
      List.all_eq_true] at hdig
    obtain ⟨hne, hall⟩ := hdig
    refine pyInt_of_decimal_digits hne ?_
    intro c hc
    exact ascii_digit_range (hall c hc) (hascii c (mem_of_mem_splitOnChar hmem hc))
  have hmap : ((splitOnChar ',' s).filter pyIsdigit).map pyInt =
      ((splitOnChar ',' s).filter pyIsdigit).map
        (fun t => some ((digitsToNat t : Nat) : Int)) :=
    List.map_congr_left htok
  constructor
  · rw [hmap]
    unfold parseWordIds
    rw [List.map_map]
    rfl
  · intro o ho
    rw [hmap] at ho
    obtain ⟨t, _, rfl⟩ := List.mem_map.mp ho
    exact ⟨digitsToNat t, rfl, Int.ofNat_nonneg _⟩

/-- A malformed but ASCII stored string used by the C10 witness. -/
def sampleStored : Str := ['1', ',', 'a', 'b', ',', ',', '2', '3']

/-- Witness for C10 on the malformed ASCII stored string `"1,ab,,23"`. -/
theorem parseWordIds_conversion_safe_ascii_witness :
    (((splitOnChar ',' sampleStored).filter pyIsdigit).map pyInt =
      (parseWordIds sampleStored).map (fun n => some ((n : Nat) : Int))) ∧
    ∀ o ∈ ((splitOnChar ',' sampleStored).filter pyIsdigit).map pyInt,
      ∃ n : Nat, o = some ((n : Nat) : Int) ∧ (0 : Int) ≤ ((n : Nat) : Int) :=
  parseWordIds_conversion_safe_ascii sampleStored (by decide)

/-- After the fresh-selection path stores a puzzle (save, then stamping
`last_used_date`), reading the puzzle for that date returns the joined ids. -/
theorem get_daily_puzzle_after_save (d d2 : Nat) (ids ids2 : List Nat) (db : DB) :
    get_daily_puzzle d (update_last_used_date ids2 d2 (save_daily_puzzle d ids db)) =
      some (joinChar ',' (ids.map natToStr)) := by
  simp [get_daily_puzzle, update_last_used_date, save_daily_puzzle]

/-- Unfolding of the today-puzzle handler when no record exists yet. -/
theorem get_today_puzzle_none_eq (today : Nat) (sW : List Word → List Word)
    (sS : List Str → List Str) (db : DB) (h : get_daily_puzzle today db = none) :
    get_today_puzzle today sW sS db =
      (if (get_words_for_puzzle today 5 30 sW db).length < 5 then (.notEnoughWords, db)
       else
        build_puzzle_response sS ((get_words_for_puzzle today 5 30 sW db).map (fun w => w.id))
          (update_last_used_date
            ((get_words_for_puzzle today 5 30 sW db).map (fun w => w.id)) today
            (save_daily_puzzle today
              ((get_words_for_puzzle today 5 30 sW db).map (fun w => w.id)) db))) := by
  unfold get_today_puzzle
  rw [h]

/-- Unfolding of the today-puzzle handler when a record exists (cache hit). -/
theorem get_today_puzzle_some_eq (today : Nat) (sW : List Word → List Word)
    (sS : List Str → List Str) (db : DB) (s : Str)
    (h : get_daily_puzzle today db = some s) :
    get_today_puzzle today sW sS db = build_puzzle_response sS (parseWordIds s) db := by
  unfold get_today_puzzle
  rw [h]

/-- Unfolding of the payload builder. -/
theorem build_puzzle_response_eq (sS : List Str → List Str) (ids : List Nat) (db : DB) :
    build_puzzle_response sS ids db =
      (if (get_word_details db.words ids).isEmpty ||
          (get_word_details db.words ids).length != ids.length then (.detailsError, db)
       else
        (.ok ids ((get_word_details db.words ids).map (fun w => (w.id, w.hint)))
          (sS (((get_word_details db.words ids).map
            (fun w => splitOnChar '-' w.syllables)).flatten))
          ((get_word_details db.words ids).map (fun w => (w.id, splitOnChar '-' w.syllables))),
         db)) := rfl

/-- C2: when no puzzle is stored for today and a first call of the
today-puzzle handler succeeds, it persists the chosen identifiers under
today's date (comma-joined), the stored string parses back to exactly those
identifiers, and a second call on the resulting state — with any fresh
randomness — reads the stored record and answers with the identical word-id
list (and hints and per-word info), leaving the state unchanged. -/
theorem get_today_puzzle_reads_persisted
    (today : Nat) (sW sW2 : List Word → List Word) (sS sS2 : List Str → List Str)
    (db db1 : DB) (ids : List Nat) (hints : List (Nat × Str)) (syls : List Str)
    (info : List (Nat × List Str))
    (hnone : get_daily_puzzle today db = none)
    (hfirst : get_today_puzzle today sW sS db = (.ok ids hints syls info, db1)) :
    get_daily_puzzle today db1 = some (joinChar ',' (ids.map natToStr)) ∧
    parseWordIds (joinChar ',' (ids.map natToStr)) = ids ∧
    ∃ syls2, get_today_puzzle today sW2 sS2 db1 = (.ok ids hints syls2 info, db1) := by
  rw [get_today_puzzle_none_eq today sW sS db hnone] at hfirst
  set wfp := get_words_for_puzzle today 5 30 sW db with hwfp
  set wids := wfp.map (fun w => w.id) with hwids
  set db2 := update_last_used_date wids today (save_daily_puzzle today wids db) with hdb2
  split at hfirst
  case isTrue hlen => simp at hfirst
  case isFalse hlen =>
    rw [build_puzzle_response_eq] at hfirst
    set wd := get_word_details db2.words wids with hwd
    split at hfirst
    case isTrue hcond => simp at hfirst
    case isFalse hcond =>
      rw [Prod.mk.injEq] at hfirst
      obtain ⟨h1, h2⟩ := hfirst
      injection h1 with hid hh hs hi
      subst hid
      subst h2
      have hlenw : wids.length = wfp.length := by
        rw [hwids, List.length_map]
      have hne : wids ≠ [] := by
        intro h0
        rw [h0] at hlenw
        simp only [List.length_nil] at hlenw
        omega
      have hpersist : get_daily_puzzle today db2 = some (joinChar ',' (wids.map natToStr)) := by
        rw [hdb2]
        exact get_daily_puzzle_after_save today today wids wids db
      refine ⟨hpersist, parseWordIds_joinChar hne, ?_⟩
      refine ⟨sS2 ((wd.map (fun w => splitOnChar '-' w.syllables)).flatten), ?_⟩
      rw [get_today_puzzle_some_eq today sW2 sS2 db2 _ hpersist,
        parseWordIds_joinChar hne, build_puzzle_response_eq]
      rw [← hwd, if_neg hcond, hh, hi]

/-- The state after a successful first today-puzzle call on `dbFive`. -/
def dbFiveAfter : DB :=
  ⟨[mkWord 1 'a' (some 100), mkWord 2 'b' (some 100), mkWord 3 'c' (some 100),
    mkWord 4 'd' (some 100), mkWord 5 'e' (some 100)],
   [(100, ['1', ',', '2', ',', '3', ',', '4', ',', '5'])], []⟩

/-- Witness for C2 on the concrete five-word database and identity shuffles. -/
theorem get_today_puzzle_reads_persisted_witness :
    get_daily_puzzle 100 dbFiveAfter =
      some (joinChar ',' ([1, 2, 3, 4, 5].map natToStr)) ∧
    parseWordIds (joinChar ',' ([1, 2, 3, 4, 5].map natToStr)) = [1, 2, 3, 4, 5] ∧
    ∃ syls2, get_today_puzzle 100 id id dbFiveAfter =
      (.ok [1, 2, 3, 4, 5]
        [(1, ['h']), (2, ['h']), (3, ['h']), (4, ['h']), (5, ['h'])] syls2
        [(1, [['a']]), (2, [['b']]), (3, [['c']]), (4, [['d']]), (5, [['e']])],
       dbFiveAfter) :=
  get_today_puzzle_reads_persisted 100 id id id id dbFive dbFiveAfter
    [1, 2, 3, 4, 5] [(1, ['h']), (2, ['h']), (3, ['h']), (4, ['h']), (5, ['h'])]
    [['a'], ['b'], ['c'], ['d'], ['e']]
    [(1, [['a']]), (2, [['b']]), (3, [['c']]), (4, [['d']]), (5, [['e']])]
    (by decide) (by decide)

/-- A concrete scores table used by the leaderboard witnesses. -/
def dbScores : DB :=
  ⟨[], [], [⟨7, ['a'], 5⟩, ⟨7, ['b'], 3⟩, ⟨8, ['c'], 1⟩, ⟨7, ['d'], 4⟩]⟩

/-- Witness for C5 at a concrete scores table and date. -/
theorem get_daily_scores_top_ten_witness :
    (get_daily_scores 7 10 dbScores).length ≤ 10 ∧
    (get_daily_scores 7 10 dbScores).Pairwise (fun a b => a.time_seconds ≤ b.time_seconds) ∧
    ∃ rest, ((get_daily_scores 7 10 dbScores) ++ rest).Perm
        (dbScores.scores.filter (fun s => s.puzzle_date == 7)) ∧
      ∀ a ∈ get_daily_scores 7 10 dbScores, ∀ b ∈ rest, a.time_seconds ≤ b.time_seconds :=
  get_daily_scores_top_ten dbScores 7

/-- Witness for C8 at concrete rows and the identity shuffles. -/
theorem save_score_append_only_witness :
    (save_score 7 ['a'] 5 dbScores).scores = dbScores.scores ++ [⟨7, ['a'], 5⟩] ∧
    (∀ s ∈ dbScores.scores, s ∈ (save_score 7 ['a'] 5 dbScores).scores) ∧
    (save_score 7 ['a'] 6 (save_score 7 ['a'] 5 dbScores)).scores =
      dbScores.scores ++ [⟨7, ['a'], 5⟩, ⟨7, ['a'], 6⟩] ∧
    (save_daily_puzzle 7 [1, 2] dbScores).scores = dbScores.scores ∧
    (update_last_used_date [1, 2] 7 dbScores).scores = dbScores.scores ∧
    ((get_today_puzzle 7 id id dbScores).2).scores = dbScores.scores ∧
    (∃ extra, ((submit_score 7 ['a'] 5 dbScores).2).scores = dbScores.scores ++ extra) :=
  save_score_append_only dbScores 7 7 ['a'] 5 6 [1, 2] id id

/-- Witness for C9 at a concrete table and id list with a missing id and a
duplicate. -/
theorem get_word_details_order_and_presence_witness :
    ((get_word_details dbFive.words [5, 9, 1, 5]).map (fun w => w.id) =
      [5, 9, 1, 5].filter (fun i => dbFive.words.any (fun w => w.id == i))) ∧
    (get_word_details dbFive.words [5, 9, 1, 5]).length =
      ([5, 9, 1, 5].filter (fun i => dbFive.words.any (fun w => w.id == i))).length ∧
    ∀ w ∈ get_word_details dbFive.words [5, 9, 1, 5], w ∈ dbFive.words :=
  get_word_details_order_and_presence dbFive.words [5, 9, 1, 5]
